import Mathlib

/-!
Shallow embedding of the real-time typing engine of this repository
(backend/src/utils/socketHelpers.js, backend/src/utils/rateLimiter.js,
backend/src/sockets/testEvents.js, backend/src/sockets/raceEvents.js),
together with proofs and refutations of the specified properties.

Modelling conventions: JS numbers appearing as millisecond timestamps,
counters and ids are Nat; Math.round / division results are Int / Rat;
Math.round is round-half-up (floor (q + 1/2)); the JS Map of players is an
insertion-ordered list; a JS value that the code only tests for truthiness
(null finishTime, null rank) is a Nat with 0 for null.
-/

namespace MonkeyType

/-- JS Math.round on a rational: floor (q + 1/2) (round half toward +inf). -/
def jsRound (q : ℚ) : ℤ := (q + 1/2).floor

/-- Model of JS Math.sqrt on rationals: exact on perfect squares (in
particular at 0), floor-approximate elsewhere.  Every concrete evaluation in
this development applies it to 0 only, where any square root model agrees. -/
def ratSqrt (q : ℚ) : ℚ := (Nat.sqrt (q.num.toNat * q.den) : ℚ) / (q.den : ℚ)

/-- One entry of a test session's keystroke log, as appended by the
test:keystroke handler (testEvents.js, keystrokeData): `correct` is the
client-supplied flag, stored verbatim without consulting the reference
text. -/
structure Keystroke where
  timestamp : ℕ
  key : Char
  correct : Bool
  position : ℕ
  deriving DecidableEq

/-- The transport-level part of a logged keystroke, i.e. what the server
itself observes independently of the client's judgement: timestamp, key
literal and text position. -/
def serverView (k : Keystroke) : ℕ × Char × ℕ := (k.timestamp, k.key, k.position)

/-- The nonempty 2-second-window wpm samples of calculateConsistency
(socketHelpers.js): for each window start 0, 2000, 4000, ... below
timeElapsed, the keystrokes with windowStart <= timestamp < windowStart+2000
are counted, and each nonempty window contributes
(count / 5) / (windowSize / 60000). -/
def windowedWpm (ks : List Keystroke) (timeElapsed : ℕ) : List ℚ :=
  let numWindows := (timeElapsed + 1999) / 2000
  let counts := (List.range numWindows).map fun w =>
    (ks.filter fun k =>
      decide (2000 * w ≤ k.timestamp) && decide (k.timestamp < 2000 * w + 2000)).length
  (counts.filter fun c => decide (0 < c)).map fun (c : ℕ) => ((c : ℚ) / 5) / ((2000 : ℚ) / 60000)

/-- calculateConsistency (socketHelpers.js): 0 below 10 keystrokes; 0 below 2
nonempty windows; otherwise the coefficient of variation CV of the windowed
wpm samples (population standard deviation over mean, CV = 1 if the mean is
not positive) is turned into max 0 (min 100 (round (100 - CV*100))). -/
def calculateConsistency (ks : List Keystroke) (timeElapsed : ℕ) : ℤ :=
  if ks.length < 10 then 0
  else
    let windows := windowedWpm ks timeElapsed
    if windows.length < 2 then 0
    else
      let mean := windows.sum / (windows.length : ℚ)
      let variance := (windows.map fun w => (w - mean) ^ 2).sum / (windows.length : ℚ)
      let stdDev := ratSqrt variance
      let cv := if 0 < mean then stdDev / mean else 1
      max 0 (min 100 (jsRound (100 - cv * 100)))

/-- The metric snapshot returned by calculateTypingStats and published on
test:stats_update. -/
structure TypingStats where
  wpm : ℤ
  accuracy : ℤ
  consistency : ℤ
  errors : ℕ
  correctChars : ℕ
  incorrectChars : ℕ
  position : ℕ
  deriving DecidableEq

/-- calculateTypingStats (socketHelpers.js).  The `text` parameter mirrors the
JS signature; the function never reads it.  With an empty log or
timeElapsed <= 0 the zero snapshot is returned (the JS object of that branch
carries no position field; position is 0 here).  Otherwise
charactersTyped = max(length, 1) - the TOTAL number of logged keystrokes -
feeds the wpm formula, and accuracy comes from the client-supplied correct
flags. -/
def calculateTypingStats (ks : List Keystroke) (text : String) (timeElapsed : ℕ) :
    TypingStats :=
  if ks.length = 0 ∨ timeElapsed = 0 then
    { wpm := 0, accuracy := 100, consistency := 0, errors := 0,
      correctChars := 0, incorrectChars := 0, position := 0 }
  else
    let total := ks.length
    let correctK := (ks.filter (·.correct)).length
    let incorrectK := total - correctK
    let charactersTyped := max ks.length 1
    let minutes : ℚ := (timeElapsed : ℚ) / (1000 * 60)
    let wpm : ℤ := jsRound (((charactersTyped : ℚ) / 5) / minutes)
    let accuracy : ℤ := jsRound (((correctK : ℚ) / (total : ℚ)) * 100)
    let consistency := calculateConsistency ks timeElapsed
    { wpm := max 0 wpm,
      accuracy := max 0 (min 100 accuracy),
      consistency := max 0 (min 100 consistency),
      errors := incorrectK,
      correctChars := correctK,
      incorrectChars := incorrectK,
      position := ks.length }

/-- The finalStats object a client may attach to test:completed
(testCompletedSchema: consistency is optional). -/
structure FinalStats where
  wpm : ℤ
  accuracy : ℤ
  consistency : Option ℤ
  errors : ℤ
  timeElapsed : ℕ
  deriving DecidableEq

/-- The test:result record built by completeTestSession (metric fields). -/
structure TestResult where
  wpm : ℤ
  accuracy : ℤ
  consistency : ℤ
  errors : ℤ
  timeElapsed : ℕ
  deriving DecidableEq

/-- completeTestSession (testEvents.js): finalStats is the client-provided
stats object when test:completed supplied one, else the server-computed
snapshot; the result echoes its wpm/accuracy/errors, consistency || 0, and
the server-side totalTime. -/
def completeResult (ks : List Keystroke) (words : String) (totalTime : ℕ)
    (provided : Option FinalStats) : TestResult :=
  match provided with
  | some p =>
      { wpm := p.wpm, accuracy := p.accuracy, consistency := p.consistency.getD 0,
        errors := p.errors, timeElapsed := totalTime }
  | none =>
      let s := calculateTypingStats ks words totalTime
      { wpm := s.wpm, accuracy := s.accuracy, consistency := s.consistency,
        errors := (s.errors : ℤ), timeElapsed := totalTime }

/-- The wpm value asserted by claim C2, read off the spec text: computed from
the count of keystrokes judged correct, 0 on an empty log or zero elapsed
time. -/
def claimWpmC2 (ks : List Keystroke) (timeElapsed : ℕ) : ℤ :=
  if ks.length = 0 ∨ timeElapsed = 0 then 0
  else jsRound ((((ks.filter (·.correct)).length : ℚ) / 5) / ((timeElapsed : ℚ) / 60000))

/-- The consistency value asserted by claim C6, read off the spec text:
CV = sigma/mu (0 when mu = 0) over the windowed wpm samples,
max 0 (min 100 (round (100*(1-CV)))), and 0 whenever fewer than 5 windowed
samples are available. -/
def claimConsistencyC6 (ks : List Keystroke) (timeElapsed : ℕ) : ℤ :=
  let samples := windowedWpm ks timeElapsed
  if samples.length < 5 then 0
  else
    let mean := samples.sum / (samples.length : ℚ)
    let sd := ratSqrt ((samples.map fun w => (w - mean) ^ 2).sum / (samples.length : ℚ))
    let cv := if mean = 0 then 0 else sd / mean
    max 0 (min 100 (jsRound (100 * (1 - cv))))

/-- The consistency formula as amended for claim C6: the thresholds the code
actually enforces are 10 logged keystrokes and 2 nonempty windowed samples
(not 5), and above them the clamped 100*(1-CV) formula applies with
CV = sigma/mu. -/
def amendedConsistencyC6 (ks : List Keystroke) (timeElapsed : ℕ) : ℤ :=
  let samples := windowedWpm ks timeElapsed
  if ks.length < 10 ∨ samples.length < 2 then 0
  else
    let mean := samples.sum / (samples.length : ℚ)
    let sd := ratSqrt ((samples.map fun w => (w - mean) ^ 2).sum / (samples.length : ℚ))
    max 0 (min 100 (jsRound (100 * (1 - sd / mean))))

/-- Every element produced by the window loop is positive: only nonempty
windows contribute, and a positive count yields a positive windowed wpm. -/
lemma windowedWpm_pos (ks : List Keystroke) (e : ℕ) :
    ∀ x ∈ windowedWpm ks e, 0 < x := by
  intro x hx
  unfold windowedWpm at hx
  simp only [List.mem_map] at hx
  obtain ⟨c, hc_mem, rfl⟩ := hx
  have hc : 0 < c := by
    have hf := List.of_mem_filter hc_mem
    simpa using hf
  have hc' : (0 : ℚ) < (c : ℚ) := by exact_mod_cast hc
  positivity

/-- The mean of the windowed wpm samples is positive whenever there is at
least one sample. -/
lemma windowedWpm_mean_pos (ks : List Keystroke) (e : ℕ)
    (h : windowedWpm ks e ≠ []) :
    0 < (windowedWpm ks e).sum / ((windowedWpm ks e).length : ℚ) := by
  have hsum : 0 < (windowedWpm ks e).sum :=
    List.sum_pos _ (windowedWpm_pos ks e) h
  have hlen : 0 < ((windowedWpm ks e).length : ℚ) := by
    have : 0 < (windowedWpm ks e).length := List.length_pos.mpr h
    exact_mod_cast this
  exact div_pos hsum hlen

/-- C1 (corrected), counterexample: two sessions whose logs agree on every
server-observed field (timestamp, key, position) and on the reference text
and elapsed time, but carry different client-supplied correct flags, publish
different accuracy values in test:stats_update; and a client-supplied
finalStats object changes the final test:result away from the
server-computed value. -/
theorem C1_counterexample :
    ([⟨0, 'a', true, 0⟩] : List Keystroke).map serverView =
      ([⟨0, 'a', false, 0⟩] : List Keystroke).map serverView ∧
    (calculateTypingStats [⟨0, 'a', true, 0⟩] "a" 60000).accuracy = 100 ∧
    (calculateTypingStats [⟨0, 'a', false, 0⟩] "a" 60000).accuracy = 0 ∧
    (completeResult [⟨0, 'a', true, 0⟩] "a" 60000
      (some ⟨999, 100, some 100, 0, 60000⟩)).wpm = 999 ∧
    (completeResult [⟨0, 'a', true, 0⟩] "a" 60000 none).wpm = 0 := by
  refine ⟨rfl, ?_, ?_, rfl, ?_⟩ <;>
    norm_num [calculateTypingStats, calculateConsistency, completeResult,
      jsRound, Rat.floor_def', List.filter]

/-- C1 (amended): the published metrics are a function of the stored
keystroke log - including the client-supplied correct flags - and of the
elapsed time only; the reference text is never consulted
(calculateTypingStats ignores its text argument), and the final test:result
echoes the client's finalStats verbatim whenever test:completed supplies
them, falling back to the server-computed snapshot otherwise. -/
theorem C1_amended :
    (∀ (ks : List Keystroke) (t1 t2 : String) (e : ℕ),
      calculateTypingStats ks t1 e = calculateTypingStats ks t2 e) ∧
    (∀ (ks : List Keystroke) (w : String) (total : ℕ) (p : FinalStats),
      completeResult ks w total (some p) =
        { wpm := p.wpm, accuracy := p.accuracy,
          consistency := p.consistency.getD 0, errors := p.errors,
          timeElapsed := total }) ∧
    (∀ (ks : List Keystroke) (w : String) (total : ℕ),
      completeResult ks w total none =
        { wpm := (calculateTypingStats ks w total).wpm,
          accuracy := (calculateTypingStats ks w total).accuracy,
          consistency := (calculateTypingStats ks w total).consistency,
          errors := ((calculateTypingStats ks w total).errors : ℤ),
          timeElapsed := total }) :=
  ⟨fun _ _ _ _ => rfl, fun _ _ _ _ => rfl, fun _ _ _ => rfl⟩

/-- C2 (corrected), counterexample: ten keystrokes all flagged incorrect over
3000 ms.  The claimed formula (correct chars / 5 per minute) gives 0, but the
code computes wpm from the total keystroke count and publishes 40. -/
theorem C2_counterexample :
    (calculateTypingStats ((List.range 10).map fun i => ⟨i, 'x', false, i⟩)
      "" 3000).wpm = 40 ∧
    claimWpmC2 ((List.range 10).map fun i => ⟨i, 'x', false, i⟩) 3000 = 0 ∧
    (40 : ℤ) ≠ 0 := by
  refine ⟨?_, ?_, by norm_num⟩ <;>
    norm_num [calculateTypingStats, calculateConsistency, windowedWpm, claimWpmC2,
      jsRound, Rat.floor_def', List.filter, List.range_succ]

/-- C2 (amended): the published wpm is
max 0 (round ((max(|log|,1) / 5) / (elapsed_ms / 60000))) - computed from the
TOTAL number of logged keystrokes, not from the count judged correct - for a
nonempty log and positive elapsed time, and 0 when the log is empty or
elapsed_ms = 0. -/
theorem C2_amended (ks : List Keystroke) (text : String) (e : ℕ) :
    ((ks = [] ∨ e = 0) → (calculateTypingStats ks text e).wpm = 0) ∧
    (ks ≠ [] → e ≠ 0 →
      (calculateTypingStats ks text e).wpm =
        max 0 (jsRound (((max ks.length 1 : ℕ) : ℚ) / 5 / ((e : ℚ) / 60000)))) := by
  constructor
  · intro h
    have hc : ks.length = 0 ∨ e = 0 := by
      rcases h with h | h
      · exact Or.inl (by simp [h])
      · exact Or.inr h
    unfold calculateTypingStats
    rw [if_pos hc]
  · intro hks he
    have hcond : ¬(ks.length = 0 ∨ e = 0) := by
      push_neg
      exact ⟨by simpa using hks, he⟩
    simp only [calculateTypingStats, if_neg hcond]
    norm_num

/-- Witness for C2 (amended) at a concrete nonempty log and nonzero time. -/
theorem C2_amended_witness :
    ([⟨0, 'a', true, 0⟩] : List Keystroke) ≠ [] ∧ (60000 : ℕ) ≠ 0 ∧
    (calculateTypingStats [⟨0, 'a', true, 0⟩] "" 60000).wpm =
      max 0 (jsRound (((max (List.length ([⟨0, 'a', true, 0⟩] : List Keystroke)) 1 : ℕ) : ℚ) /
        5 / ((60000 : ℚ) / 60000))) :=
  ⟨by simp, by norm_num,
    (C2_amended [⟨0, 'a', true, 0⟩] "" 60000).2 (by simp) (by norm_num)⟩

/-- C6 (corrected), counterexample: ten keystrokes spread over two 2-second
windows (five each) in 4000 ms.  Only 2 windowed samples exist, so the claim
demands consistency 0; the code's threshold is 2 samples, both windows show
identical wpm, and the code publishes consistency 100. -/
theorem C6_counterexample :
    calculateConsistency
      [⟨0, 'a', true, 0⟩, ⟨400, 'b', true, 1⟩, ⟨800, 'c', true, 2⟩,
       ⟨1200, 'd', true, 3⟩, ⟨1600, 'e', true, 4⟩, ⟨2000, 'f', true, 5⟩,
       ⟨2400, 'g', true, 6⟩, ⟨2800, 'h', true, 7⟩, ⟨3200, 'i', true, 8⟩,
       ⟨3600, 'j', true, 9⟩] 4000 = 100 ∧
    claimConsistencyC6
      [⟨0, 'a', true, 0⟩, ⟨400, 'b', true, 1⟩, ⟨800, 'c', true, 2⟩,
       ⟨1200, 'd', true, 3⟩, ⟨1600, 'e', true, 4⟩, ⟨2000, 'f', true, 5⟩,
       ⟨2400, 'g', true, 6⟩, ⟨2800, 'h', true, 7⟩, ⟨3200, 'i', true, 8⟩,
       ⟨3600, 'j', true, 9⟩] 4000 = 0 ∧
    (100 : ℤ) ≠ 0 := by
  refine ⟨?_, ?_, by norm_num⟩
  · norm_num [calculateConsistency, windowedWpm, jsRound, ratSqrt, Rat.floor_def',
      List.filter, List.range_succ]
  · norm_num [claimConsistencyC6, windowedWpm, List.filter, List.range_succ]

/-- C6 (amended): the published consistency follows the claimed clamped
100*(1-CV) formula with CV = sigma/mu over the windowed wpm samples, but the
zero thresholds are the ones the code enforces: fewer than 10 logged
keystrokes or fewer than 2 nonempty windowed samples (not 5); the mu = 0 case
of the claim is unreachable because every windowed sample is positive. -/
theorem C6_amended (ks : List Keystroke) (e : ℕ) :
    calculateConsistency ks e = amendedConsistencyC6 ks e := by
  unfold calculateConsistency amendedConsistencyC6
  by_cases h10 : ks.length < 10
  · simp [h10]
  · by_cases h2 : (windowedWpm ks e).length < 2
    · simp [h10, h2]
    · have hne : windowedWpm ks e ≠ [] := by
        intro hnil
        rw [hnil] at h2
        simp at h2
      have hpos := windowedWpm_mean_pos ks e hne
      simp only [h10, h2, if_neg, if_false, if_pos hpos]
      congr 1
      congr 1
      congr 1
      ring

/-- A token bucket as stored by RateLimiter.buckets (rateLimiter.js). -/
structure Bucket where
  tokens : ℕ
  lastRefill : ℕ
  createdAt : ℕ
  deriving DecidableEq

/-- The record returned by RateLimiter.checkRate.  The allowed branch carries
no retryAfter field in JS; 0 stands for that absent field here. -/
structure RateCheck where
  allowed : Bool
  remaining : ℕ
  retryAfter : ℤ
  deriving DecidableEq

/-- RateLimiter.checkRate for the keystroke class: capacity 20, refillRate 20,
window 1000 ms, hence one token per window/refillRate = 50 ms.  A missing
bucket is created full; floor(elapsed / 50) tokens are refilled (capped at
20, lastRefill advanced only when at least one token is added); then one
token is consumed when available, else the call is denied with
retryAfter = 50 - elapsed.  Returns the result record and the stored
bucket. -/
def checkKeystrokeRate (bucket : Option Bucket) (now : ℕ) : RateCheck × Bucket :=
  let b0 := bucket.getD { tokens := 20, lastRefill := now, createdAt := now }
  let elapsed := now - b0.lastRefill
  let tokensToAdd := elapsed / 50
  let b1 := if 0 < tokensToAdd then
      { b0 with tokens := min 20 (b0.tokens + tokensToAdd), lastRefill := now }
    else b0
  if 0 < b1.tokens then
    ({ allowed := true, remaining := b1.tokens - 1, retryAfter := 0 },
     { b1 with tokens := b1.tokens - 1 })
  else
    ({ allowed := false, remaining := 0, retryAfter := 50 - (elapsed : ℤ) }, b1)

/-- An error envelope as emitted by emitError (code and kind). -/
structure ErrorMsg where
  code : ℕ
  kind : String
  deriving DecidableEq

/-- State of one user's test:keystroke pipeline: the keystroke-class bucket
and the session's keystroke log. -/
structure KsState where
  bucket : Option Bucket
  log : List Keystroke
  deriving DecidableEq

/-- The rate gate of the test:keystroke handler (testEvents.js): a denied
event is answered with 4001 RATE_LIMITED and the handler returns before
touching the session, so the log is unchanged; an allowed event is appended
to the keystroke log. -/
def keystrokeStep (st : KsState) (now : ℕ) (k : Keystroke) : KsState × Option ErrorMsg :=
  let rc := checkKeystrokeRate st.bucket now
  if rc.1.allowed then ({ bucket := some rc.2, log := st.log ++ [k] }, none)
  else ({ bucket := some rc.2, log := st.log }, some { code := 4001, kind := "RATE_LIMITED" })

/-- The arrival times accepted by one identity's keystroke bucket along a
sequence of checkRate calls. -/
def acceptedTimes (bucket : Option Bucket) : List ℕ → List ℕ
  | [] => []
  | t :: ts =>
    let rc := checkKeystrokeRate bucket t
    if rc.1.allowed then t :: acceptedTimes (some rc.2) ts
    else acceptedTimes (some rc.2) ts

/-- When every arrival stays within 50 ms of the bucket's lastRefill, no
refill ever fires, so at most tokens-many arrivals are accepted. -/
lemma acceptedTimes_burst (t0 : ℕ) :
    ∀ (ts : List ℕ) (b : Bucket), t0 ≤ b.lastRefill → (∀ t ∈ ts, t < t0 + 50) →
      (acceptedTimes (some b) ts).length ≤ b.tokens := by
  intro ts
  induction ts with
  | nil => intro b _ _; simp [acceptedTimes]
  | cons t ts ih =>
    intro b hlr hts
    have helap : t - b.lastRefill < 50 := by
      have := hts t (List.mem_cons_self t ts)
      omega
    have hadd : (t - b.lastRefill) / 50 = 0 := Nat.div_eq_of_lt helap
    have hts' : ∀ u ∈ ts, u < t0 + 50 := fun u hu => hts u (List.mem_cons_of_mem t hu)
    by_cases htok : 0 < b.tokens
    · have hstep :
          acceptedTimes (some b) (t :: ts) =
            t :: acceptedTimes (some { b with tokens := b.tokens - 1 }) ts := by
        simp [acceptedTimes, checkKeystrokeRate, hadd, htok]
      rw [hstep]
      have hrec := ih { b with tokens := b.tokens - 1 } hlr hts'
      dsimp only at hrec
      simp only [List.length_cons]
      omega
    · have hstep :
          acceptedTimes (some b) (t :: ts) = acceptedTimes (some b) ts := by
        simp [acceptedTimes, checkKeystrokeRate, hadd, htok]
      rw [hstep]
      exact ih b hlr hts'

/-- C5 (corrected), counterexample: forty keystroke events inside the single
1-second window [1000, 2000) - twenty at t=1000 and twenty at t=1999.  The
refill at t=1999 adds floor(999/50) = 19 tokens, so the bucket accepts 39 of
them: the claimed per-window bound of 20 accepted events is exceeded. -/
theorem C5_counterexample :
    (acceptedTimes none (List.replicate 20 1000 ++ List.replicate 20 1999)).length = 39 ∧
    (∀ t ∈ List.replicate 20 1000 ++ List.replicate 20 1999, 1000 ≤ t ∧ t < 2000) ∧
    20 < 39 := by
  refine ⟨by decide, by decide, by norm_num⟩

/-- C5 (amended): the per-identity keystroke bucket admits at most 20 events
across any span in which no token refill elapses - in particular any burst
whose arrivals all fall within 50 ms of the first (the code's refill quantum;
across a full 1-second window, refills can raise the accepted count up to 39,
as the counterexample shows) - and every denied event is answered with
code 4001 RATE_LIMITED while leaving the session's keystroke log unchanged. -/
theorem C5_amended (t0 : ℕ) (ts : List ℕ) (h : ∀ t ∈ ts, t0 ≤ t ∧ t < t0 + 50) :
    (acceptedTimes none ts).length ≤ 20 ∧
    (∀ (st : KsState) (now : ℕ) (k : Keystroke),
      (checkKeystrokeRate st.bucket now).1.allowed = false →
      (keystrokeStep st now k).1.log = st.log ∧
      (keystrokeStep st now k).2 = some { code := 4001, kind := "RATE_LIMITED" }) := by
  constructor
  · match ts, h with
    | [], _ => simp [acceptedTimes]
    | t :: ts, h =>
      have ht0 : t0 ≤ t := (h t (List.mem_cons_self t ts)).1
      have hstep :
          acceptedTimes none (t :: ts) =
            t :: acceptedTimes (some { tokens := 19, lastRefill := t, createdAt := t }) ts := by
        simp [acceptedTimes, checkKeystrokeRate]
      rw [hstep]
      have hb := acceptedTimes_burst t0 ts
        { tokens := 19, lastRefill := t, createdAt := t } ht0
        (fun u hu => (h u (List.mem_cons_of_mem t hu)).2)
      dsimp only at hb
      simp only [List.length_cons]
      omega
  · intro st now k hdenied
    constructor <;> simp [keystrokeStep, hdenied]

/-- Witness for C5 (amended): a burst of 25 events all at t = 7. -/
theorem C5_amended_witness :
    (∀ t ∈ List.replicate 25 (7 : ℕ), 7 ≤ t ∧ t < 7 + 50) ∧
    (acceptedTimes none (List.replicate 25 (7 : ℕ))).length ≤ 20 :=
  ⟨by decide, (C5_amended 7 (List.replicate 25 7) (by decide)).1⟩

/-- Race lifecycle status as stored by raceEvents.js; the code's terminal
status string is 'finished' (the spec's completed state). -/
inductive RaceStatus
  | waiting
  | countdown
  | active
  | finished
  deriving DecidableEq

/-- Race mode. -/
inductive RaceMode
  | time
  | words
  deriving DecidableEq

/-- A roster entry (the player objects built by race:create / race:join).
finishTime and rank are tested by the code only for truthiness, so 0 models
JS null; consistency is absent until race:finish writes it, 0 modelling
undefined (read back as consistency || 0). -/
structure RPlayer where
  userId : ℕ
  position : ℕ
  wpm : ℕ
  accuracy : ℕ
  consistency : ℕ
  errors : ℕ
  isFinished : Bool
  finishTime : ℕ
  rank : ℕ
  deriving DecidableEq

/-- The fresh roster entry installed on create/join. -/
def newPlayer (uid : ℕ) : RPlayer :=
  { userId := uid, position := 0, wpm := 0, accuracy := 100, consistency := 0,
    errors := 0, isFinished := false, finishTime := 0, rank := 0 }

/-- A race object (raceEvents.js).  players is the insertion-ordered JS Map
of roster entries; duration is in seconds and only meaningful in time
mode. -/
structure Race where
  status : RaceStatus
  mode : RaceMode
  duration : ℕ
  maxPlayers : ℕ
  countdownStarted : Bool
  startTime : Option ℕ
  players : List RPlayer
  deriving DecidableEq

/-- race:create: a waiting race holding the creator as its first player. -/
def createRace (creator : ℕ) (mode : RaceMode) (duration maxPlayers : ℕ) : Race :=
  { status := .waiting, mode := mode, duration := duration,
    maxPlayers := maxPlayers, countdownStarted := false, startTime := none,
    players := [newPlayer creator] }

/-- race.players.has(uid). -/
def hasPlayer (r : Race) (uid : ℕ) : Bool :=
  r.players.any fun p => decide (p.userId = uid)

/-- race.players.get(uid). -/
def getPlayer (r : Race) (uid : ℕ) : Option RPlayer :=
  r.players.find? fun p => decide (p.userId = uid)

/-- In-place mutation of the roster entry with the given id (JS object
mutation; Map order preserved). -/
def setPlayer (r : Race) (uid : ℕ) (p' : RPlayer) : Race :=
  { r with players := r.players.map fun p => if p.userId = uid then p' else p }

/-- startRaceCountdown (raceEvents.js): no-op unless the race is waiting with
no countdown started yet; otherwise mark countdownStarted and move to
countdown.  The 1-second interval it spawns is modelled by the
countdownZero event below. -/
def startRaceCountdown (r : Race) : Race :=
  if r.countdownStarted = true ∨ r.status ≠ .waiting then r
  else { r with countdownStarted := true, status := .countdown }

/-- The countdown interval's final tick (raceEvents.js): the callback
unconditionally sets status to active and records startTime.  endRace never
clears this interval and the callback does not re-check the race status, so
once startRaceCountdown has run, this step fires about countdown-duration
seconds later whatever happened in between. -/
def countdownZeroStep (r : Race) (now : ℕ) : Race :=
  { r with status := .active, startTime := some now }

/-- endRace's forEach rank assignment: consecutive ranks from n onward. -/
def assignRanks : ℕ → List RPlayer → List RPlayer
  | _, [] => []
  | n, p :: ps => { p with rank := n } :: assignRanks (n + 1) ps

/-- endRace's ranking order: finished players stably sorted by ascending
finishTime (Array.prototype.sort with a numeric comparator is a stable sort;
insertionSort along a total ≤ is stable too, so both produce the same list),
followed by the unfinished players in roster order. -/
def endRaceOrder (players : List RPlayer) : List RPlayer :=
  ((players.filter fun p => p.isFinished).insertionSort
      fun a b => a.finishTime ≤ b.finishTime)
    ++ players.filter fun p => !p.isFinished

/-- The rankings array published in race:completed: the ordered players with
ranks 1, 2, ... assigned in order (finished first, then unfinished). -/
def endRaceRankings (players : List RPlayer) : List RPlayer :=
  assignRanks 1 (endRaceOrder players)

/-- endRace (raceEvents.js): no-op when already finished; otherwise set
status finished and write every roster entry's computed final rank back into
the players map (order preserved; the roster is keyed by userId, so ids are
unique). -/
def endRace (r : Race) : Race :=
  if r.status = .finished then r
  else
    { r with status := .finished,
             players := r.players.map fun p =>
               match (endRaceRankings r.players).find? (fun q => decide (q.userId = p.userId)) with
               | some q => { p with rank := q.rank }
               | none => p }

/-- The time-limit disjunct of checkRaceCompletion.  With a null startTime
the JS expression throws before endRace can run; the false branch mirrors
that outcome (the handler's try/catch then skips only the remaining
broadcasts, no state written earlier is rolled back). -/
def timeLimitReached (r : Race) (now : ℕ) : Bool :=
  match r.startTime with
  | some s => decide (r.duration * 1000 ≤ now - s)
  | none => false

/-- checkRaceCompletion (raceEvents.js): end the race when every roster entry
is finished, or in time mode when the elapsed time reached the duration. -/
def checkRaceCompletion (r : Race) (now : ℕ) : Race :=
  if (r.players.filter fun p => p.isFinished).length = r.players.length ∨
      (r.mode = .time ∧ timeLimitReached r now = true)
  then endRace r else r

/-- What the race:join handler did: an error envelope, a re-emit of the
joined state to an already-present caller, or a real join. -/
inductive JoinOutcome
  | error (code : ℕ) (kind : String)
  | rejoined
  | joined
  deriving DecidableEq

/-- The race:join handler (raceEvents.js) once the race was found, in the
code's check order: full, started, finished, already-present (re-join:
re-emit race:joined, no state change), then the real join followed by the
min-players countdown trigger (players.size >= 2 and countdown not yet
started). -/
def raceJoin (r : Race) (uid : ℕ) : JoinOutcome × Race :=
  if r.maxPlayers ≤ r.players.length then (.error 2002 "RACE_FULL", r)
  else if r.status = .active then (.error 2003 "RACE_STARTED", r)
  else if r.status = .finished then (.error 2004 "RACE_FINISHED", r)
  else if hasPlayer r uid = true then (.rejoined, r)
  else
    let r1 := { r with players := r.players ++ [newPlayer uid] }
    let r2 := if 2 ≤ r1.players.length ∧ r1.countdownStarted = false
      then startRaceCountdown r1 else r1
    (.joined, r2)

/-- The roster mutation of race:leave: delete the caller's entry if present
(registry-level deletion of an emptied race is modelled at the registry
layer). -/
def raceLeaveObj (r : Race) (uid : ℕ) : Race :=
  if hasPlayer r uid = true then
    { r with players := r.players.filter fun p => !decide (p.userId = uid) }
  else r

/-- Payload of race:progress. -/
structure ProgressData where
  position : ℕ
  wpm : ℕ
  accuracy : ℕ
  errors : ℕ
  isFinished : Bool
  deriving DecidableEq

/-- The race:progress handler (raceEvents.js) once the race was found:
NOT_IN_RACE for a non-member; silent return unless the race is active;
otherwise overwrite the roster entry with the client-supplied position, wpm,
accuracy, errors and isFinished, and - only when isFinished is claimed while
finishTime is still unset - record finishTime = now - startTime, set rank to
the current number of finished players, and run checkRaceCompletion.
startTime is non-null whenever status is active; getD 0 covers the
unreachable branch. -/
def raceProgress (r : Race) (uid : ℕ) (d : ProgressData) (now : ℕ) :
    Race × Option ErrorMsg :=
  match getPlayer r uid with
  | none => (r, some { code := 2005, kind := "NOT_IN_RACE" })
  | some p =>
    if r.status ≠ .active then (r, none)
    else
      let p1 := { p with position := d.position, wpm := d.wpm,
                         accuracy := d.accuracy, errors := d.errors,
                         isFinished := d.isFinished }
      if d.isFinished = true ∧ p1.finishTime = 0 then
        let p2 := { p1 with finishTime := now - r.startTime.getD 0 }
        let r1 := setPlayer r uid p2
        let finCount := (r1.players.filter fun q => q.isFinished).length
        let r2 := setPlayer r1 uid { p2 with rank := finCount }
        (checkRaceCompletion r2 now, none)
      else
        (setPlayer r uid p1, none)

/-- Payload of race:finish (finalStats). -/
structure RFinalStats where
  wpm : ℕ
  accuracy : ℕ
  consistency : ℕ
  errors : ℕ
  finishTime : ℕ
  deriving DecidableEq

/-- The race:finish handler (raceEvents.js) once the race was found:
NOT_IN_RACE for a non-member; nothing if the entry is already finished;
otherwise (with no status check at all) mark it finished with the
client-supplied finalStats, set rank from the position in the
finishTime-sorted finished list, and run checkRaceCompletion. -/
def raceFinish (r : Race) (uid : ℕ) (fs : RFinalStats) (now : ℕ) :
    Race × Option ErrorMsg :=
  match getPlayer r uid with
  | none => (r, some { code := 2005, kind := "NOT_IN_RACE" })
  | some p =>
    if p.isFinished = true then (r, none)
    else
      let p1 := { p with isFinished := true, finishTime := fs.finishTime,
                         wpm := fs.wpm, accuracy := fs.accuracy,
                         consistency := fs.consistency, errors := fs.errors }
      let r1 := setPlayer r uid p1
      let sortedFin := (r1.players.filter fun q => q.isFinished).insertionSort
        fun a b => a.finishTime ≤ b.finishTime
      let rank := sortedFin.findIdx (fun q => decide (q.userId = uid)) + 1
      let r2 := setPlayer r1 uid { p1 with rank := rank }
      (checkRaceCompletion r2 now, none)

/-- The membership gate of race:message once the race was found. -/
def raceMessage (r : Race) (uid : ℕ) : Option ErrorMsg :=
  if hasPlayer r uid = true then none
  else some { code := 2005, kind := "NOT_IN_RACE" }

/-- One event hitting a single race object. -/
inductive REvent
  | join (uid : ℕ)
  | leave (uid : ℕ)
  | progress (uid : ℕ) (d : ProgressData) (now : ℕ)
  | finish (uid : ℕ) (fs : RFinalStats) (now : ℕ)
  | countdownZero (now : ℕ)
  | raceTimeout (now : ℕ)
  deriving DecidableEq

/-- The race-object part of each handler (raceTimeout is the race-duration
timer set when the countdown reaches zero; unlike the countdown interval it
does re-check that the race is still active). -/
def raceStep (r : Race) : REvent → Race
  | .join uid => (raceJoin r uid).2
  | .leave uid => raceLeaveObj r uid
  | .progress uid d now => (raceProgress r uid d now).1
  | .finish uid fs now => (raceFinish r uid fs now).1
  | .countdownZero now => countdownZeroStep r now
  | .raceTimeout _ => if r.status = .active then endRace r else r

/-- A race evolving through a sequence of events. -/
def runRace (r : Race) (evs : List REvent) : Race := evs.foldl raceStep r

/-- assignRanks hands out exactly the consecutive ranks n, n+1, ... -/
lemma assignRanks_map_rank (l : List RPlayer) :
    ∀ n, (assignRanks n l).map (fun p => p.rank) = List.range' n l.length := by
  induction l with
  | nil => intro n; rfl
  | cons p ps ih =>
    intro n
    simp only [assignRanks, List.map_cons, List.length_cons, List.range'_succ, ih]

/-- assignRanks only touches the rank field, so the id sequence is kept. -/
lemma assignRanks_map_userId (l : List RPlayer) :
    ∀ n, (assignRanks n l).map (fun p => p.userId) = l.map (fun p => p.userId) := by
  induction l with
  | nil => intro n; rfl
  | cons p ps ih =>
    intro n
    simp only [assignRanks, List.map_cons, ih]

/-- The ranking order is a permutation of the roster. -/
lemma endRaceOrder_perm (ps : List RPlayer) : (endRaceOrder ps).Perm ps := by
  unfold endRaceOrder
  exact ((List.perm_insertionSort _ _).append_right _).trans
    (List.filter_append_perm _ ps)

/-- C3 (confirmed): the rank values of the rankings array published in
race:completed (endRace) are a permutation of 1..|roster|: ranks 1.. are
assigned in order along a reordering of the roster, so every player carries
exactly one rank, none is duplicated, and none falls outside 1..|roster|. -/
theorem C3_ranks_permutation (ps : List RPlayer) :
    ((endRaceRankings ps).map (fun p => p.rank)).Perm (List.range' 1 ps.length) ∧
    ((endRaceRankings ps).map (fun p => p.userId)).Perm (ps.map (fun p => p.userId)) := by
  have hlen : (endRaceOrder ps).length = ps.length := (endRaceOrder_perm ps).length_eq
  constructor
  · rw [endRaceRankings, assignRanks_map_rank, hlen]
  · rw [endRaceRankings, assignRanks_map_userId]
    exact (endRaceOrder_perm ps).map _

/-- Position of a status in the lifecycle order demanded by the spec. -/
def statusIdx : RaceStatus → ℕ
  | .waiting => 0
  | .countdown => 1
  | .active => 2
  | .finished => 3

/-- Whether a status sequence never steps backwards in lifecycle order. -/
def statusMonotone : List RaceStatus → Bool
  | [] => true
  | [_] => true
  | a :: b :: rest => decide (statusIdx a ≤ statusIdx b) && statusMonotone (b :: rest)

/-- C4 (code bug): a two-player words race whose players both send
race:finish during the countdown (race:finish never checks the status) ends
the race, and the never-cancelled countdown interval then fires and moves the
status from finished back to active - the observed status sequence
waiting, countdown, countdown, finished, active regresses, which the spec
calls a fatal engine bug. -/
theorem C4_status_regression_trace :
    (List.scanl raceStep (createRace 1 .words 0 2)
        [.join 2, .finish 1 ⟨80, 95, 90, 1, 30000⟩ 30000,
         .finish 2 ⟨70, 90, 80, 2, 31000⟩ 31000, .countdownZero 31500]).map
        (fun r => r.status) =
      [.waiting, .countdown, .countdown, .finished, .active] ∧
    statusMonotone [.waiting, .countdown, .countdown, .finished, .active] = false := by
  constructor <;> decide

/-- C7 (corrected), counterexample: the race:join handler checks fullness
before membership, so a duplicate race:join into a full two-player race from
a caller who is already in the roster is answered with 2002 RACE_FULL, not
with the re-emitted joined state the claim demands for every occupancy. -/
theorem C7_counterexample :
    (raceJoin
      { status := .waiting, mode := .words, duration := 0, maxPlayers := 2,
        countdownStarted := true, startTime := none,
        players := [newPlayer 1, newPlayer 2] } 1).1 =
      JoinOutcome.error 2002 "RACE_FULL" ∧
    (raceJoin
      { status := .waiting, mode := .words, duration := 0, maxPlayers := 2,
        countdownStarted := true, startTime := none,
        players := [newPlayer 1, newPlayer 2] } 1).1 ≠ JoinOutcome.rejoined := by
  constructor <;> decide

/-- C7 (amended): a duplicate race:join from an identity already in the
roster never changes the race state (whatever the occupancy and status), and
it re-emits the joined state to the caller exactly when the race is not full
and not active/finished; when full (or started/finished) the handler answers
with the corresponding error instead, still leaving the state unchanged. -/
theorem C7_amended (r : Race) (uid : ℕ) (h : hasPlayer r uid = true) :
    (raceJoin r uid).2 = r ∧
    (r.players.length < r.maxPlayers → r.status ≠ .active → r.status ≠ .finished →
      (raceJoin r uid).1 = JoinOutcome.rejoined) := by
  unfold raceJoin
  constructor
  · split_ifs with h1 h2 h3 <;> simp_all
  · intro hfull hact hfin
    have h1 : ¬ r.maxPlayers ≤ r.players.length := by omega
    simp [h1, hact, hfin, h]

/-- Witness for C7 (amended): a member re-joining a non-full waiting race. -/
theorem C7_amended_witness :
    (raceJoin
      { status := .waiting, mode := .words, duration := 0, maxPlayers := 3,
        countdownStarted := true, startTime := none,
        players := [newPlayer 1, newPlayer 2] } 1).2 =
      { status := .waiting, mode := .words, duration := 0, maxPlayers := 3,
        countdownStarted := true, startTime := none,
        players := [newPlayer 1, newPlayer 2] } ∧
    (raceJoin
      { status := .waiting, mode := .words, duration := 0, maxPlayers := 3,
        countdownStarted := true, startTime := none,
        players := [newPlayer 1, newPlayer 2] } 1).1 = JoinOutcome.rejoined := by
  have h := C7_amended
    { status := .waiting, mode := .words, duration := 0, maxPlayers := 3,
      countdownStarted := true, startTime := none,
      players := [newPlayer 1, newPlayer 2] } 1 (by decide)
  exact ⟨h.1, h.2 (by decide) (by decide) (by decide)⟩

/-- startRaceCountdown never touches the roster. -/
lemma startRaceCountdown_players (r : Race) :
    (startRaceCountdown r).players = r.players := by
  unfold startRaceCountdown; split <;> rfl

/-- startRaceCountdown never touches the capacity. -/
lemma startRaceCountdown_maxPlayers (r : Race) :
    (startRaceCountdown r).maxPlayers = r.maxPlayers := by
  unfold startRaceCountdown; split <;> rfl

/-- startRaceCountdown keeps the status within the pre-active phase. -/
lemma startRaceCountdown_status (r : Race)
    (h : r.status = .waiting ∨ r.status = .countdown) :
    (startRaceCountdown r).status = .waiting ∨
      (startRaceCountdown r).status = .countdown := by
  unfold startRaceCountdown
  split
  · exact h
  · exact Or.inr rfl

/-- A sequence of race:join requests applied to a race. -/
def joinAll (r : Race) (uids : List ℕ) : Race :=
  uids.foldl (fun s u => (raceJoin s u).2) r

/-- Roster growth under joins of pairwise-distinct fresh identities: each
join adds one player while there is room (status stays pre-active along the
way, so the started/finished rejections never fire) and is refused once the
roster reaches maxPlayers. -/
lemma joinAll_length (uids : List ℕ) : ∀ (r : Race),
    r.players.length ≤ r.maxPlayers →
    (r.status = .waiting ∨ r.status = .countdown) →
    uids.Nodup →
    (∀ u ∈ uids, hasPlayer r u = false) →
    (joinAll r uids).players.length =
      min (r.players.length + uids.length) r.maxPlayers := by
  induction uids with
  | nil =>
    intro r hle _ _ _
    simp only [joinAll, List.foldl_nil, List.length_nil, Nat.add_zero]
    omega
  | cons u us ih =>
    intro r hle hst hnd hfresh
    have hstatus_ne_active : r.status ≠ .active := by
      rcases hst with h | h <;> simp [h]
    have hstatus_ne_fin : r.status ≠ .finished := by
      rcases hst with h | h <;> simp [h]
    have hjoin_cons : joinAll r (u :: us) = joinAll (raceJoin r u).2 us := by
      simp [joinAll]
    by_cases hfull : r.maxPlayers ≤ r.players.length
    · have hstep : (raceJoin r u).2 = r := by
        unfold raceJoin
        simp [hfull]
      rw [hjoin_cons, hstep,
        ih r hle hst hnd.of_cons (fun v hv => hfresh v (List.mem_cons_of_mem u hv))]
      have : r.players.length = r.maxPlayers := le_antisymm hle hfull
      simp only [List.length_cons]
      omega
    · have hu_fresh : hasPlayer r u = false := hfresh u (List.mem_cons_self u us)
      set r1 : Race := { r with players := r.players ++ [newPlayer u] } with hr1
      have hstep : (raceJoin r u).2 =
          (if 2 ≤ r1.players.length ∧ r1.countdownStarted = false
            then startRaceCountdown r1 else r1) := by
        unfold raceJoin
        simp [hfull, hstatus_ne_active, hstatus_ne_fin, hu_fresh, hr1]
      set r2 : Race := (if 2 ≤ r1.players.length ∧ r1.countdownStarted = false
        then startRaceCountdown r1 else r1) with hr2
      have hplayers2 : r2.players = r.players ++ [newPlayer u] := by
        rw [hr2]
        split
        · rw [startRaceCountdown_players, hr1]
        · rw [hr1]
      have hmax2 : r2.maxPlayers = r.maxPlayers := by
        rw [hr2]
        split
        · rw [startRaceCountdown_maxPlayers, hr1]
        · rw [hr1]
      have hstatus1 : r1.status = .waiting ∨ r1.status = .countdown := by
        rw [hr1]; exact hst
      have hstatus2 : r2.status = .waiting ∨ r2.status = .countdown := by
        rw [hr2]
        split
        · exact startRaceCountdown_status r1 hstatus1
        · exact hstatus1
      have hfresh2 : ∀ v ∈ us, hasPlayer r2 v = false := by
        intro v hv
        have hvr : hasPlayer r v = false := hfresh v (List.mem_cons_of_mem u hv)
        have hvu : v ≠ u := by
          intro hvu
          exact (List.nodup_cons.mp hnd).1 (hvu ▸ hv)
        simp only [hasPlayer, hplayers2, List.any_append, List.any_cons,
          List.any_nil, Bool.or_false, newPlayer] at *
        simp [hvr]
        omega
      have hle2 : r2.players.length ≤ r2.maxPlayers := by
        rw [hplayers2, hmax2]
        simp only [List.length_append, List.length_cons, List.length_nil]
        omega
      rw [hjoin_cons, hstep,
        ih r2 hle2 hstatus2 hnd.of_cons hfresh2, hplayers2, hmax2]
      simp only [List.length_append, List.length_cons, List.length_nil]
      omega

/-- C8 (confirmed): a race of capacity maxPlayers admits exactly maxPlayers
roster entries - the creator's automatic join at race:create plus
maxPlayers - 1 successful race:join events (with enough distinct candidates
the roster length is min(1 + |joins|, maxPlayers), hence exactly maxPlayers
once |joins| >= maxPlayers - 1); and any race:join hitting a full race is
answered with 2002 RACE_FULL on the originating connection with the race
state (roster and status) left unchanged. -/
theorem C8_join_capacity :
    (∀ (r : Race) (uid : ℕ), r.maxPlayers ≤ r.players.length →
      raceJoin r uid = (JoinOutcome.error 2002 "RACE_FULL", r)) ∧
    (∀ (creator : ℕ) (mode : RaceMode) (dur m : ℕ) (uids : List ℕ),
      2 ≤ m → uids.Nodup → creator ∉ uids →
      (joinAll (createRace creator mode dur m) uids).players.length =
        min (1 + uids.length) m) := by
  constructor
  · intro r uid h
    unfold raceJoin
    simp [h]
  · intro creator mode dur m uids h2 hnd hni
    have hfresh : ∀ u ∈ uids, hasPlayer (createRace creator mode dur m) u = false := by
      intro u hu
      have : creator ≠ u := fun he => hni (he ▸ hu)
      simp [createRace, hasPlayer, newPlayer]
      omega
    have := joinAll_length uids (createRace creator mode dur m)
      (by simp [createRace]; omega) (Or.inl rfl) hnd hfresh
    simpa [createRace] using this

/-- Witness for C8: capacity 2; the creator plus one join fill the race
(roster length min(1+2,2) = 2 after two join attempts), and a join into a
full race errors with RACE_FULL and no state change. -/
theorem C8_join_capacity_witness :
    raceJoin
      { status := .waiting, mode := .words, duration := 0, maxPlayers := 2,
        countdownStarted := true, startTime := none,
        players := [newPlayer 1, newPlayer 2] } 3 =
      (JoinOutcome.error 2002 "RACE_FULL",
        { status := .waiting, mode := .words, duration := 0, maxPlayers := 2,
          countdownStarted := true, startTime := none,
          players := [newPlayer 1, newPlayer 2] }) ∧
    (joinAll (createRace 1 RaceMode.words 0 2) [2, 3]).players.length =
      min (1 + 2) 2 :=
  ⟨C8_join_capacity.1
      { status := .waiting, mode := .words, duration := 0, maxPlayers := 2,
        countdownStarted := true, startTime := none,
        players := [newPlayer 1, newPlayer 2] } 3 (by decide),
    C8_join_capacity.2 1 RaceMode.words 0 2 [2, 3] (by norm_num) (by decide)
      (by decide)⟩

/-- The finished flag of uid's roster entry (false when absent). -/
def pFin (r : Race) (uid : ℕ) : Bool :=
  ((getPlayer r uid).map fun p => p.isFinished).getD false

/-- The finish-time of uid's roster entry (0 when absent or unset). -/
def pFT (r : Race) (uid : ℕ) : ℕ :=
  ((getPlayer r uid).map fun p => p.finishTime).getD 0

/-- A find? hit on the roster satisfies its own predicate. -/
lemma find?_userId (ps : List RPlayer) (v : ℕ) (p : RPlayer)
    (h : ps.find? (fun q => decide (q.userId = v)) = some p) : p.userId = v := by
  have := List.find?_some h
  simpa using this

/-- Looking up an id through a userId-preserving roster map. -/
lemma find?_mapPlayers (ps : List RPlayer) (f : RPlayer → RPlayer)
    (hf : ∀ p, (f p).userId = p.userId) (uid : ℕ) :
    (ps.map f).find? (fun p => decide (p.userId = uid)) =
      (ps.find? fun p => decide (p.userId = uid)).map f := by
  induction ps with
  | nil => rfl
  | cons p ps ih =>
    by_cases h : p.userId = uid
    · simp [List.find?_cons, hf, h]
    · simp [List.find?_cons, hf, h, ih]

/-- getPlayer after a setPlayer mutation, as a map over the old lookup. -/
lemma getPlayer_setPlayer (r : Race) (v : ℕ) (p' : RPlayer) (hp : p'.userId = v)
    (uid : ℕ) :
    getPlayer (setPlayer r v p') uid =
      (getPlayer r uid).map fun p => if p.userId = v then p' else p := by
  unfold getPlayer setPlayer
  dsimp only
  refine find?_mapPlayers r.players _ (fun p => ?_) uid
  by_cases h : p.userId = v <;> simp [h, hp]

/-- setPlayer on some other id leaves uid's lookup unchanged. -/
lemma getPlayer_setPlayer_ne (r : Race) (v : ℕ) (p' : RPlayer) (uid : ℕ)
    (hp : p'.userId = v) (hne : uid ≠ v) :
    getPlayer (setPlayer r v p') uid = getPlayer r uid := by
  rw [getPlayer_setPlayer r v p' hp uid]
  cases hgp : getPlayer r uid with
  | none => rfl
  | some p =>
    have hpu : p.userId = uid := find?_userId r.players uid p hgp
    have : ¬ p.userId = v := by rw [hpu]; exact hne
    simp [this]

/-- setPlayer on uid's own id replaces uid's lookup. -/
lemma getPlayer_setPlayer_self (r : Race) (v : ℕ) (p' : RPlayer) (p : RPlayer)
    (hp : p'.userId = v) (hgp : getPlayer r v = some p) :
    getPlayer (setPlayer r v p') v = some p' := by
  rw [getPlayer_setPlayer r v p' hp v, hgp]
  have hpu : p.userId = v := find?_userId r.players v p hgp
  simp [hpu]

/-- endRace only rewrites ranks (and the status), so each entry's finished
flag and finish-time survive it. -/
lemma pFin_pFT_endRace (r : Race) (uid : ℕ) :
    pFin (endRace r) uid = pFin r uid ∧ pFT (endRace r) uid = pFT r uid := by
  unfold endRace
  split
  · exact ⟨rfl, rfl⟩
  · unfold pFin pFT getPlayer
    dsimp only
    rw [find?_mapPlayers r.players _ (fun p => ?_) uid]
    · cases r.players.find? fun p => decide (p.userId = uid) with
      | none => exact ⟨rfl, rfl⟩
      | some p =>
        constructor <;>
          · rcases hq : (endRaceRankings r.players).find? fun q => decide (q.userId = p.userId)
              with _ | q <;> simp [hq]

    · cases (endRaceRankings r.players).find? fun q => decide (q.userId = p.userId) <;> rfl

/-- checkRaceCompletion preserves every entry's finished flag and
finish-time (it either ends the race or does nothing). -/
lemma pFin_pFT_checkRaceCompletion (r : Race) (now : ℕ) (uid : ℕ) :
    pFin (checkRaceCompletion r now) uid = pFin r uid ∧
      pFT (checkRaceCompletion r now) uid = pFT r uid := by
  unfold checkRaceCompletion
  split
  · exact pFin_pFT_endRace r uid
  · exact ⟨rfl, rfl⟩

/-- pFin through a setPlayer mutation of another id. -/
lemma pFin_setPlayer_ne (r : Race) (v : ℕ) (p' : RPlayer) (uid : ℕ)
    (hp : p'.userId = v) (hne : uid ≠ v) :
    pFin (setPlayer r v p') uid = pFin r uid := by
  unfold pFin
  rw [getPlayer_setPlayer_ne r v p' uid hp hne]

/-- pFT through a setPlayer mutation of another id. -/
lemma pFT_setPlayer_ne (r : Race) (v : ℕ) (p' : RPlayer) (uid : ℕ)
    (hp : p'.userId = v) (hne : uid ≠ v) :
    pFT (setPlayer r v p') uid = pFT r uid := by
  unfold pFT
  rw [getPlayer_setPlayer_ne r v p' uid hp hne]

/-- pFin after mutating uid's own entry. -/
lemma pFin_setPlayer_self (r : Race) (v : ℕ) (p' : RPlayer) {p : RPlayer}
    (hp : p'.userId = v) (hgp : getPlayer r v = some p) :
    pFin (setPlayer r v p') v = p'.isFinished := by
  unfold pFin
  rw [getPlayer_setPlayer_self r v p' p hp hgp]
  rfl

/-- pFT after mutating uid's own entry. -/
lemma pFT_setPlayer_self (r : Race) (v : ℕ) (p' : RPlayer) {p : RPlayer}
    (hp : p'.userId = v) (hgp : getPlayer r v = some p) :
    pFT (setPlayer r v p') v = p'.finishTime := by
  unfold pFT
  rw [getPlayer_setPlayer_self r v p' p hp hgp]
  rfl

/-- The event restriction of claim C9's amendment: only race:progress and
race:finish events, the progress payloads never retracting is_finished and
the finish payloads never carrying a zero finishTime. -/
def progressFinishOnly : REvent → Prop
  | .progress _ d _ => d.isFinished = true
  | .finish _ fs _ => fs.finishTime ≠ 0
  | _ => False

/-- One-step preservation for C9 under progressFinishOnly events: the
invariant "a nonzero finish-time implies the finished flag", monotonicity of
the finished flag, and stability of a nonzero finish-time. -/
lemma raceStep_finMono (r : Race) (e : REvent) (uid : ℕ)
    (hok : progressFinishOnly e)
    (hinv : pFT r uid ≠ 0 → pFin r uid = true) :
    (pFT (raceStep r e) uid ≠ 0 → pFin (raceStep r e) uid = true) ∧
    (pFin r uid = true → pFin (raceStep r e) uid = true) ∧
    (∀ t, t ≠ 0 → pFT r uid = t → pFT (raceStep r e) uid = t) := by
  cases e with
  | join v => exact absurd hok (by simp [progressFinishOnly])
  | leave v => exact absurd hok (by simp [progressFinishOnly])
  | countdownZero now => exact absurd hok (by simp [progressFinishOnly])
  | raceTimeout now => exact absurd hok (by simp [progressFinishOnly])
  | progress v d now =>
    have hd : d.isFinished = true := hok
    show (pFT (raceProgress r v d now).1 uid ≠ 0 →
        pFin (raceProgress r v d now).1 uid = true) ∧
      (pFin r uid = true → pFin (raceProgress r v d now).1 uid = true) ∧
      (∀ t, t ≠ 0 → pFT r uid = t → pFT (raceProgress r v d now).1 uid = t)
    rcases hgp : getPlayer r v with _ | p
    · have hr : (raceProgress r v d now).1 = r := by
        unfold raceProgress
        rw [hgp]
      rw [hr]
      exact ⟨hinv, fun h => h, fun t _ h => h⟩
    · have hpu : p.userId = v := find?_userId r.players v p hgp
      by_cases hact : r.status = .active
      · by_cases hft : p.finishTime = 0
        · -- newly finishing: finishTime and rank written, then
          -- checkRaceCompletion runs
          set pA : RPlayer := { p with
              position := d.position,
              wpm := d.wpm,
              accuracy := d.accuracy,
              errors := d.errors,
              isFinished := d.isFinished,
              finishTime := now - r.startTime.getD 0 } with hpA
          set rX : Race := setPlayer r v pA with hrX
          set pB : RPlayer := { pA with
              rank := (rX.players.filter fun q => q.isFinished).length } with hpB
          have hAv : pA.userId = v := hpu
          have hBv : pB.userId = v := hpu
          have hr : (raceProgress r v d now).1 =
              checkRaceCompletion (setPlayer rX v pB) now := by
            rw [hpB, hrX, hpA]
            unfold raceProgress
            rw [hgp]
            dsimp only
            rw [if_neg (by simp [hact]), if_pos ⟨hd, hft⟩]
          have hgp1 : getPlayer rX v = some pA :=
            getPlayer_setPlayer_self r v pA p hpu hgp
          by_cases huid : uid = v
          · subst huid
            have hfin2 : pFin (raceProgress r uid d now).1 uid = true := by
              rw [hr, (pFin_pFT_checkRaceCompletion _ now uid).1,
                pFin_setPlayer_self rX uid pB hBv hgp1]
              exact hd
            have hft3 : pFT r uid = 0 := by simp [pFT, hgp, hft]
            refine ⟨fun _ => hfin2, fun _ => hfin2, ?_⟩
            intro t ht h
            exact absurd (h.symm.trans hft3) ht
          · have e1 : pFin (raceProgress r v d now).1 uid = pFin r uid := by
              rw [hr, (pFin_pFT_checkRaceCompletion _ now uid).1,
                pFin_setPlayer_ne rX v pB uid hBv huid,
                pFin_setPlayer_ne r v pA uid hAv huid]
            have e2 : pFT (raceProgress r v d now).1 uid = pFT r uid := by
              rw [hr, (pFin_pFT_checkRaceCompletion _ now uid).2,
                pFT_setPlayer_ne rX v pB uid hBv huid,
                pFT_setPlayer_ne r v pA uid hAv huid]
            rw [e1, e2]
            exact ⟨hinv, fun h => h, fun t _ h => h⟩
        · -- no fresh finish-time: plain field overwrite
          set pA : RPlayer := { p with
              position := d.position,
              wpm := d.wpm,
              accuracy := d.accuracy,
              errors := d.errors,
              isFinished := d.isFinished } with hpA
          have hAv : pA.userId = v := hpu
          have hr : (raceProgress r v d now).1 = setPlayer r v pA := by
            rw [hpA]
            unfold raceProgress
            rw [hgp]
            dsimp only
            rw [if_neg (by simp [hact]), if_neg (by simp [hft])]
          by_cases huid : uid = v
          · subst huid
            have hfin2 : pFin (raceProgress r uid d now).1 uid = true := by
              rw [hr, pFin_setPlayer_self r uid pA hAv hgp]
              exact hd
            have hft2 : pFT (raceProgress r uid d now).1 uid = pFT r uid := by
              rw [hr, pFT_setPlayer_self r uid pA hAv hgp]
              simp [pFT, hgp, hpA]
            refine ⟨fun _ => hfin2, fun _ => hfin2, ?_⟩
            intro t ht h
            rw [hft2]
            exact h
          · have e1 : pFin (raceProgress r v d now).1 uid = pFin r uid := by
              rw [hr, pFin_setPlayer_ne r v pA uid hAv huid]
            have e2 : pFT (raceProgress r v d now).1 uid = pFT r uid := by
              rw [hr, pFT_setPlayer_ne r v pA uid hAv huid]
            rw [e1, e2]
            exact ⟨hinv, fun h => h, fun t _ h => h⟩
      · -- race not active: silent return
        have hr : (raceProgress r v d now).1 = r := by
          unfold raceProgress
          rw [hgp]
          dsimp only
          rw [if_pos (by simp [hact])]
        rw [hr]
        exact ⟨hinv, fun h => h, fun t _ h => h⟩
  | finish v fs now =>
    have hfs : fs.finishTime ≠ 0 := hok
    show (pFT (raceFinish r v fs now).1 uid ≠ 0 →
        pFin (raceFinish r v fs now).1 uid = true) ∧
      (pFin r uid = true → pFin (raceFinish r v fs now).1 uid = true) ∧
      (∀ t, t ≠ 0 → pFT r uid = t → pFT (raceFinish r v fs now).1 uid = t)
    rcases hgp : getPlayer r v with _ | p
    · have hr : (raceFinish r v fs now).1 = r := by
        unfold raceFinish
        rw [hgp]
      rw [hr]
      exact ⟨hinv, fun h => h, fun t _ h => h⟩
    · have hpu : p.userId = v := find?_userId r.players v p hgp
      by_cases hpf : p.isFinished = true
      · have hr : (raceFinish r v fs now).1 = r := by
          unfold raceFinish
          rw [hgp]
          dsimp only
          rw [if_pos hpf]
        rw [hr]
        exact ⟨hinv, fun h => h, fun t _ h => h⟩
      · set pC : RPlayer := { p with
            isFinished := true,
            finishTime := fs.finishTime,
            wpm := fs.wpm,
            accuracy := fs.accuracy,
            consistency := fs.consistency,
            errors := fs.errors } with hpC
        set rY : Race := setPlayer r v pC with hrY
        set pD : RPlayer := { pC with
            rank := ((rY.players.filter fun q => q.isFinished).insertionSort
                fun a b => a.finishTime ≤ b.finishTime).findIdx
              (fun q => decide (q.userId = v)) + 1 } with hpD
        have hCv : pC.userId = v := hpu
        have hDv : pD.userId = v := hpu
        have hr : (raceFinish r v fs now).1 =
            checkRaceCompletion (setPlayer rY v pD) now := by
          rw [hpD, hrY, hpC]
          unfold raceFinish
          rw [hgp]
          dsimp only
          rw [if_neg hpf]
        have hgp1 : getPlayer rY v = some pC :=
          getPlayer_setPlayer_self r v pC p hpu hgp
        by_cases huid : uid = v
        · subst huid
          have hfin2 : pFin (raceFinish r uid fs now).1 uid = true := by
            rw [hr, (pFin_pFT_checkRaceCompletion _ now uid).1,
              pFin_setPlayer_self rY uid pD hDv hgp1]
          refine ⟨fun _ => hfin2, fun _ => hfin2, ?_⟩
          intro t ht h
          exfalso
          have hpfin : pFin r uid = true := by
            refine hinv ?_
            rw [h]
            exact ht
          have hpi : p.isFinished = true := by simpa [pFin, hgp] using hpfin
          exact hpf hpi
        · have e1 : pFin (raceFinish r v fs now).1 uid = pFin r uid := by
            rw [hr, (pFin_pFT_checkRaceCompletion _ now uid).1,
              pFin_setPlayer_ne rY v pD uid hDv huid,
              pFin_setPlayer_ne r v pC uid hCv huid]
          have e2 : pFT (raceFinish r v fs now).1 uid = pFT r uid := by
            rw [hr, (pFin_pFT_checkRaceCompletion _ now uid).2,
              pFT_setPlayer_ne rY v pD uid hDv huid,
              pFT_setPlayer_ne r v pC uid hCv huid]
          rw [e1, e2]
          exact ⟨hinv, fun h => h, fun t _ h => h⟩

/-- An active two-player race used to exercise the progress handler. -/
def raceC9 : Race :=
  { status := .active, mode := .words, duration := 0, maxPlayers := 2,
    countdownStarted := true, startTime := some 1000,
    players := [newPlayer 1, newPlayer 2] }

/-- C9 (corrected), counterexample: in an active two-player race the client
first reports is_finished = true (the finished flag is set and
finish-time 4000 recorded) and then is_finished = false via race:progress;
the handler copies the client flag verbatim, so the finished flag
transitions from true back to false, against the claim. -/
theorem C9_counterexample :
    pFin (runRace raceC9 [.progress 1 ⟨10, 50, 90, 0, true⟩ 5000]) 1 = true ∧
    pFT (runRace raceC9 [.progress 1 ⟨10, 50, 90, 0, true⟩ 5000]) 1 = 4000 ∧
    pFin (runRace raceC9
      [.progress 1 ⟨10, 50, 90, 0, true⟩ 5000,
       .progress 1 ⟨10, 50, 90, 0, false⟩ 6000]) 1 = false := by
  refine ⟨?_, ?_, ?_⟩ <;> decide

/-- C9 (amended): across any sequence of race:progress and race:finish
events in which no race:progress retracts is_finished (the code overwrites
the flag with the client value, so a retraction resets it - see the
counterexample) and no race:finish carries a zero finish-time (zero is the
code's "unset" sentinel), the finished flag transitions false -> true at
most once (monotonicity) and a finish-time, once set to a nonzero value, is
never overwritten. -/
theorem C9_amended (r : Race) (uid : ℕ) (evs : List REvent)
    (hinv : pFT r uid ≠ 0 → pFin r uid = true)
    (hevs : ∀ e ∈ evs, progressFinishOnly e) :
    (pFT (runRace r evs) uid ≠ 0 → pFin (runRace r evs) uid = true) ∧
    (pFin r uid = true → pFin (runRace r evs) uid = true) ∧
    (∀ t, t ≠ 0 → pFT r uid = t → pFT (runRace r evs) uid = t) := by
  induction evs generalizing r with
  | nil =>
    exact ⟨hinv, fun h => h, fun t _ h => h⟩
  | cons e es ih =>
    have hstep := raceStep_finMono r e uid (hevs e (List.mem_cons_self e es)) hinv
    have hrun : runRace r (e :: es) = runRace (raceStep r e) es := by
      simp [runRace]
    rw [hrun]
    have hrec := ih (raceStep r e) hstep.1
      (fun e' he' => hevs e' (List.mem_cons_of_mem e he'))
    exact ⟨hrec.1, fun h => hrec.2.1 (hstep.2.1 h),
      fun t ht h => hrec.2.2 t ht (hstep.2.2 t ht h)⟩

/-- Witness for C9 (amended): a player already finished at time 4000
receives a race:finish with finishTime 7777; the stored finish-time 4000
survives. -/
theorem C9_amended_witness :
    pFT (runRace
      { status := .active, mode := .words, duration := 0, maxPlayers := 2,
        countdownStarted := true, startTime := some 1000,
        players := [{ newPlayer 1 with isFinished := true, finishTime := 4000 },
          newPlayer 2] }
      [.finish 1 ⟨60, 99, 80, 0, 7777⟩ 6000]) 1 = 4000 :=
  (C9_amended
    { status := .active, mode := .words, duration := 0, maxPlayers := 2,
      countdownStarted := true, startTime := some 1000,
      players := [{ newPlayer 1 with isFinished := true, finishTime := 4000 },
        newPlayer 2] }
    1 [.finish 1 ⟨60, 99, 80, 0, 7777⟩ 6000] (by decide)
    (fun e he => by
      rw [List.mem_singleton] at he
      subst he
      exact (by decide : (7777 : ℕ) ≠ 0))).2.2 4000 (by decide) (by decide)

/-- The activeRaces registry (a JS Map from raceId to race object),
insertion-ordered. -/
abbrev Registry := List (ℕ × Race)

/-- activeRaces.get(raceId). -/
def regGet (reg : Registry) (rid : ℕ) : Option Race :=
  (reg.find? fun e => decide (e.1 = rid)).map fun e => e.2

/-- activeRaces.set(raceId, race): replace in place, else append. -/
def regSet (reg : Registry) (rid : ℕ) (r : Race) : Registry :=
  if reg.any fun e => decide (e.1 = rid) then
    reg.map fun e => if e.1 = rid then (rid, r) else e
  else reg ++ [(rid, r)]

/-- activeRaces.delete(raceId). -/
def regDel (reg : Registry) (rid : ℕ) : Registry :=
  reg.filter fun e => !decide (e.1 = rid)

/-- An inbound race event addressed to the registry by race id. -/
inductive GEvent
  | create (rid uid : ℕ) (mode : RaceMode) (duration m : ℕ)
  | join (rid uid : ℕ)
  | leave (rid uid : ℕ)
  | progress (rid uid : ℕ) (d : ProgressData) (now : ℕ)
  | finish (rid uid : ℕ) (fs : RFinalStats) (now : ℕ)
  | message (rid uid : ℕ)
  | countdownZero (rid : ℕ) (now : ℕ)
  | raceTimeout (rid : ℕ) (now : ℕ)
  deriving DecidableEq

/-- The error envelope (if any) of a join outcome. -/
def joinOut : JoinOutcome → Option ErrorMsg
  | .error c k => some { code := c, kind := k }
  | _ => none

/-- The registry-level part of each raceEvents.js handler.  Every handler
that takes a raceId answers RACE_NOT_FOUND (2001) when activeRaces has no
entry - race:leave excepted, which returns silently.  race:leave deletes the
entry outright when the leaving player was the last one, with no status
check.  The two timer events act on the captured race object; when the entry
was already deleted their mutation hits only the unreachable stale object,
so the registry is unchanged. -/
def registryStep (reg : Registry) : GEvent → Registry × Option ErrorMsg
  | .create rid uid mode dur m =>
    (regSet reg rid (createRace uid mode dur m), none)
  | .join rid uid =>
    match regGet reg rid with
    | none => (reg, some { code := 2001, kind := "RACE_NOT_FOUND" })
    | some r => (regSet reg rid (raceJoin r uid).2, joinOut (raceJoin r uid).1)
  | .leave rid uid =>
    match regGet reg rid with
    | none => (reg, none)
    | some r =>
      if hasPlayer r uid = true then
        if (raceLeaveObj r uid).players.length = 0 then (regDel reg rid, none)
        else (regSet reg rid (raceLeaveObj r uid), none)
      else (reg, none)
  | .progress rid uid d now =>
    match regGet reg rid with
    | none => (reg, some { code := 2001, kind := "RACE_NOT_FOUND" })
    | some r =>
      (regSet reg rid (raceProgress r uid d now).1, (raceProgress r uid d now).2)
  | .finish rid uid fs now =>
    match regGet reg rid with
    | none => (reg, some { code := 2001, kind := "RACE_NOT_FOUND" })
    | some r =>
      (regSet reg rid (raceFinish r uid fs now).1, (raceFinish r uid fs now).2)
  | .message rid uid =>
    match regGet reg rid with
    | none => (reg, some { code := 2001, kind := "RACE_NOT_FOUND" })
    | some r => (reg, raceMessage r uid)
  | .countdownZero rid now =>
    match regGet reg rid with
    | none => (reg, none)
    | some r => (regSet reg rid (countdownZeroStep r now), none)
  | .raceTimeout rid now =>
    match regGet reg rid with
    | none => (reg, none)
    | some r =>
      (regSet reg rid (if r.status = .active then endRace r else r), none)

/-- Entries of a regSet result come from the write or from the old
registry. -/
lemma mem_regSet (reg : Registry) (rid : ℕ) (r : Race) :
    ∀ e ∈ regSet reg rid r, e = (rid, r) ∨ e ∈ reg := by
  intro e he
  unfold regSet at he
  split at he
  · rw [List.mem_map] at he
    obtain ⟨e', he', rfl⟩ := he
    by_cases h : e'.1 = rid
    · left
      simp [h]
    · right
      simpa [h] using he'
  · rw [List.mem_append] at he
    rcases he with he | he
    · exact Or.inr he
    · exact Or.inl (by simpa using he)

/-- A successful registry lookup comes from some entry. -/
lemma regGet_mem (reg : Registry) (rid : ℕ) (r : Race)
    (h : regGet reg rid = some r) : ∃ e ∈ reg, e.2 = r := by
  unfold regGet at h
  rcases hf : reg.find? fun e => decide (e.1 = rid) with _ | e
  · rw [hf] at h
    simp at h
  · rw [hf] at h
    simp at h
    exact ⟨e, List.mem_of_find?_eq_some hf, h⟩

/-- Deleting an id empties its lookup. -/
lemma regGet_regDel (reg : Registry) (rid : ℕ) :
    regGet (regDel reg rid) rid = none := by
  unfold regGet regDel
  rw [List.find?_eq_none.mpr]
  · rfl
  · intro e he
    have := List.of_mem_filter he
    simpa using this

/-- setPlayer keeps the roster length. -/
lemma setPlayer_players_length (r : Race) (v : ℕ) (p' : RPlayer) :
    (setPlayer r v p').players.length = r.players.length := by
  simp [setPlayer]

/-- endRace keeps the roster length. -/
lemma endRace_players_length (r : Race) :
    (endRace r).players.length = r.players.length := by
  unfold endRace
  split
  · rfl
  · simp

/-- checkRaceCompletion keeps the roster length. -/
lemma checkRaceCompletion_players_length (r : Race) (now : ℕ) :
    (checkRaceCompletion r now).players.length = r.players.length := by
  unfold checkRaceCompletion
  split
  · exact endRace_players_length r
  · rfl

/-- race:progress keeps the roster length. -/
lemma raceProgress_players_length (r : Race) (v : ℕ) (d : ProgressData)
    (now : ℕ) :
    ((raceProgress r v d now).1).players.length = r.players.length := by
  unfold raceProgress
  split
  · rfl
  · dsimp only
    split
    · rfl
    · split
      · rw [checkRaceCompletion_players_length, setPlayer_players_length,
          setPlayer_players_length]
      · rw [setPlayer_players_length]

/-- race:finish keeps the roster length. -/
lemma raceFinish_players_length (r : Race) (v : ℕ) (fs : RFinalStats)
    (now : ℕ) :
    ((raceFinish r v fs now).1).players.length = r.players.length := by
  unfold raceFinish
  split
  · rfl
  · dsimp only
    split
    · rfl
    · rw [checkRaceCompletion_players_length, setPlayer_players_length,
        setPlayer_players_length]

/-- race:join keeps a nonempty roster nonempty. -/
lemma raceJoin_players_ne (r : Race) (uid : ℕ) (h : r.players ≠ []) :
    ((raceJoin r uid).2).players ≠ [] := by
  unfold raceJoin
  split_ifs <;> try exact h
  dsimp only
  split
  · rw [startRaceCountdown_players]
    simp
  · simp

/-- Writing a race with a nonempty roster preserves the registry
invariant. -/
lemma regSet_invariant (reg : Registry) (rid : ℕ) (r : Race)
    (hreg : ∀ e ∈ reg, e.2.players ≠ []) (hr : r.players ≠ []) :
    ∀ e ∈ regSet reg rid r, e.2.players ≠ [] := by
  intro e he
  rcases mem_regSet reg rid r e he with rfl | hm
  · exact hr
  · exact hreg e hm

/-- A race found in an invariant-respecting registry has a nonempty
roster. -/
lemma regGet_players_ne (reg : Registry) (rid : ℕ) (r : Race)
    (hreg : ∀ e ∈ reg, e.2.players ≠ []) (hg : regGet reg rid = some r) :
    r.players ≠ [] := by
  obtain ⟨e, he, her⟩ := regGet_mem reg rid r hg
  rw [← her]
  exact hreg e he

/-- C10 (confirmed): every race held in the activeRaces registry has a
nonempty roster (an invariant preserved by every registry event: races are
created with their creator aboard, and race:leave deletes a race the moment
its roster empties, with no status check, so also during countdown and
active); a race:leave by the only remaining player removes the entry, and a
subsequent race:progress or race:message for a missing race id is answered
with 2001 RACE_NOT_FOUND. -/
theorem C10_registry_invariant :
    (∀ (reg : Registry) (ev : GEvent),
      (∀ e ∈ reg, e.2.players ≠ []) →
      ∀ e ∈ (registryStep reg ev).1, e.2.players ≠ []) ∧
    (∀ (reg : Registry) (rid uid : ℕ) (r : Race),
      regGet reg rid = some r →
      r.players.map (fun p => p.userId) = [uid] →
      regGet (registryStep reg (.leave rid uid)).1 rid = none) ∧
    (∀ (reg : Registry) (rid uid : ℕ) (d : ProgressData) (now : ℕ),
      regGet reg rid = none →
      (registryStep reg (.progress rid uid d now)).2 =
        some { code := 2001, kind := "RACE_NOT_FOUND" } ∧
      (registryStep reg (.message rid uid)).2 =
        some { code := 2001, kind := "RACE_NOT_FOUND" }) := by
  refine ⟨?_, ?_, ?_⟩
  · intro reg ev hreg
    cases ev with
    | create rid uid mode dur m =>
      refine regSet_invariant reg rid _ hreg ?_
      simp [createRace]
    | join rid uid =>
      show ∀ e ∈ (registryStep reg (.join rid uid)).1, e.2.players ≠ []
      unfold registryStep
      dsimp only
      rcases hg : regGet reg rid with _ | r
      · exact hreg
      · exact regSet_invariant reg rid _ hreg
          (raceJoin_players_ne r uid (regGet_players_ne reg rid r hreg hg))
    | leave rid uid =>
      show ∀ e ∈ (registryStep reg (.leave rid uid)).1, e.2.players ≠ []
      unfold registryStep
      dsimp only
      rcases hg : regGet reg rid with _ | r
      · exact hreg
      · dsimp only
        split
        · split
          · intro e he
            exact hreg e (List.mem_of_mem_filter he)
          · refine regSet_invariant reg rid _ hreg ?_
            intro hnil
            rename_i hlen
            exact hlen (by rw [hnil]; rfl)
        · exact hreg
    | progress rid uid d now =>
      show ∀ e ∈ (registryStep reg (.progress rid uid d now)).1, e.2.players ≠ []
      unfold registryStep
      dsimp only
      rcases hg : regGet reg rid with _ | r
      · exact hreg
      · refine regSet_invariant reg rid _ hreg ?_
        have hlen := raceProgress_players_length r uid d now
        have hne := regGet_players_ne reg rid r hreg hg
        intro hnil
        rw [hnil] at hlen
        exact hne (List.length_eq_zero.mp hlen.symm)
    | finish rid uid fs now =>
      show ∀ e ∈ (registryStep reg (.finish rid uid fs now)).1, e.2.players ≠ []
      unfold registryStep
      dsimp only
      rcases hg : regGet reg rid with _ | r
      · exact hreg
      · refine regSet_invariant reg rid _ hreg ?_
        have hlen := raceFinish_players_length r uid fs now
        have hne := regGet_players_ne reg rid r hreg hg
        intro hnil
        rw [hnil] at hlen
        exact hne (List.length_eq_zero.mp hlen.symm)
    | message rid uid =>
      show ∀ e ∈ (registryStep reg (.message rid uid)).1, e.2.players ≠ []
      unfold registryStep
      dsimp only
      rcases hg : regGet reg rid with _ | r <;> exact hreg
    | countdownZero rid now =>
      show ∀ e ∈ (registryStep reg (.countdownZero rid now)).1, e.2.players ≠ []
      unfold registryStep
      dsimp only
      rcases hg : regGet reg rid with _ | r
      · exact hreg
      · exact regSet_invariant reg rid _ hreg
          (regGet_players_ne reg rid r hreg hg)
    | raceTimeout rid now =>
      show ∀ e ∈ (registryStep reg (.raceTimeout rid now)).1, e.2.players ≠ []
      unfold registryStep
      dsimp only
      rcases hg : regGet reg rid with _ | r
      · exact hreg
      · refine regSet_invariant reg rid _ hreg ?_
        have hne := regGet_players_ne reg rid r hreg hg
        split
        · have hlen := endRace_players_length r
          intro hnil
          rw [hnil] at hlen
          exact hne (List.length_eq_zero.mp hlen.symm)
        · exact hne
  · intro reg rid uid r hg hmap
    rcases hp : r.players with _ | ⟨p, rest⟩
    · rw [hp] at hmap
      simp at hmap
    · rw [hp] at hmap
      simp only [List.map_cons, List.cons.injEq] at hmap
      obtain ⟨hpu, hrest⟩ := hmap
      have hrest' : rest = [] := by
        rcases rest with _ | ⟨q, qs⟩
        · rfl
        · simp at hrest
      subst hrest'
      have hhas : hasPlayer r uid = true := by
        unfold hasPlayer
        rw [hp]
        simp [hpu]
      have hlen0 : (raceLeaveObj r uid).players.length = 0 := by
        unfold raceLeaveObj
        rw [if_pos hhas]
        dsimp only
        rw [hp]
        simp [hpu]
      show regGet (registryStep reg (.leave rid uid)).1 rid = none
      unfold registryStep
      dsimp only
      rw [hg]
      dsimp only
      rw [if_pos hhas, if_pos hlen0]
      exact regGet_regDel reg rid
  · intro reg rid uid d now hg
    constructor
    · show (registryStep reg (.progress rid uid d now)).2 = _
      unfold registryStep
      dsimp only
      rw [hg]
    · show (registryStep reg (.message rid uid)).2 = _
      unfold registryStep
      dsimp only
      rw [hg]

/-- Witness for C10: a one-player race whose creator leaves; the registry
entry disappears. -/
theorem C10_registry_invariant_witness :
    regGet (registryStep [(5, createRace 1 RaceMode.words 0 2)]
      (.leave 5 1)).1 5 = none :=
  C10_registry_invariant.2.1 [(5, createRace 1 RaceMode.words 0 2)] 5 1
    (createRace 1 RaceMode.words 0 2) (by decide) (by decide)

end MonkeyType
